import Mathlib

/-!
Shallow embedding of the duplicate-text detector (`src/main.rs`) and proofs
about its core algorithms: rolling-window hashing (`rolling_hashes`), pairwise
match extension (`maximize_collision` with its `overlap` veto), match-group
canonicalization (`Collision::scrub` with `remove_overlap_same_file` and
`_signature`), the signature-keyed final dedup pass of `process_report`, and
the summary accounting of `print_report`.

Modeling conventions:
- Machine integers (`u32`, `u64`, `usize`) are modeled as `Nat`; none of the
  verified properties depend on wrap-around behaviour, and the Rust code's
  additions stay far below `2^32`/`2^64` on all realistic inputs.
- The 64-bit hashers (`DefaultHasher`) are abstract parameters: `wh` hashes a
  window of line signatures, `kh` hashes the signatures consumed during match
  extension, and `sh` hashes the list of decimal strings fed to the group
  signature hasher.  Each theorem quantifies over these functions.
- An occurrence is a pair `(file id, start line)`, mirroring the Rust tuple
  `(u32, u32)` whose `.0` is the file id and `.1` the start line.
- Rust `Vec` indexing panics out of bounds; the model uses `List.getD` with
  default values at the two places (`file_hashes[l_info.0]`, `files[0]`) where
  the surrounding program guarantees in-bounds access.  The `Checked` variants
  of the extension loop make every signature access fallible and are used to
  prove the in-bounds/totality claim.
-/

namespace Duplihere

/-- Mirror of the Rust `Collision` struct: a content key, the extended match
length in lines, the occurrence list `(file id, start line)`, and the group
signature. -/
structure Collision where
  key : Nat
  num_lines : Nat
  files : List (Nat × Nat)
  sig : Nat
deriving DecidableEq, Repr

/-- Mirror of `fn overlap(left, right, end)`: same file, and equal starts or
either start falling in the closed interval `[other.start, other.start + end]`. -/
def overlap (left right : Nat × Nat) (endLen : Nat) : Bool :=
  decide (left.1 = right.1 ∧
    (left.2 = right.2 ∨
      (right.2 ≥ left.2 ∧ right.2 ≤ left.2 + endLen) ∨
      (left.2 ≥ right.2 ∧ left.2 ≤ right.2 + endLen)))

/-- Half-open range intersection: the line ranges `[a.2, a.2 + n)` and
`[b.2, b.2 + n)` of two same-file occurrences intersect.  This is the spec's
notion of overlapping occurrences. -/
def rangesIntersectB (a b : Nat × Nat) (n : Nat) : Bool :=
  decide (a.1 = b.1 ∧ a.2 < b.2 + n ∧ b.2 < a.2 + n)

/-- The lock-step extension loop of `maximize_collision`: starting from
`offset`, walk both signature vectors while both indices are in bounds and the
signatures agree, returning the final offset. -/
def extendLoop (l_h r_h : List Nat) (ls rs offset : Nat) : Nat :=
  if h : ls + offset < l_h.length ∧ rs + offset < r_h.length then
    if l_h.getD (ls + offset) 0 = r_h.getD (rs + offset) 0 then
      extendLoop l_h r_h ls rs (offset + 1)
    else offset
  else offset
termination_by l_h.length - (ls + offset)
decreasing_by omega

/-- Mirror of `fn maximize_collision(file_hashes, l_info, r_info, min_lines)`.
`kh` abstracts the `DefaultHasher` accumulated over the consumed signatures;
the Rust key is the hash of exactly the signatures matched by the loop, i.e.
the first `offset` entries of `l_h` from `l_info.1`.  Rust indexes
`file_hashes` with the file ids (panicking when invalid); the model uses
`getD` with an empty vector, and the totality claim is settled against the
`Checked` variant below. -/
def maximize_collision (kh : List Nat → Nat) (file_hashes : List (List Nat))
    (l_info r_info : Nat × Nat) (min_lines : Nat) : Option Collision :=
  let l_h := file_hashes.getD l_info.1 []
  let r_h := file_hashes.getD r_info.1 []
  if overlap l_info r_info min_lines then none
  else
    let offset := extendLoop l_h r_h l_info.2 r_info.2 0
    if overlap l_info r_info offset then none
    else
      some { key := kh ((l_h.drop l_info.2).take offset)
             num_lines := offset
             files := [(l_info.1, l_info.2), (r_info.1, r_info.2)]
             sig := 0 }

/-- Instrumented extension loop: every signature access goes through the
fallible `getElem?`, and an out-of-bounds access yields an error.  Used to
state that the bounds guards of the Rust loop keep every access in bounds. -/
def extendLoopChecked (l_h r_h : List Nat) (ls rs offset : Nat) :
    Except String Nat :=
  if h : ls + offset < l_h.length ∧ rs + offset < r_h.length then
    match l_h[ls + offset]?, r_h[rs + offset]? with
    | some a, some b =>
      if a = b then extendLoopChecked l_h r_h ls rs (offset + 1)
      else Except.ok offset
    | _, _ => Except.error "signature index out of bounds"
  else Except.ok offset
termination_by l_h.length - (ls + offset)
decreasing_by omega

/-- Instrumented `maximize_collision`: the accesses `file_hashes[l_info.0]`
and `file_hashes[r_info.0]` are fallible, and the extension loop is the
checked one. -/
def maximize_collisionChecked (kh : List Nat → Nat)
    (file_hashes : List (List Nat)) (l_info r_info : Nat × Nat)
    (min_lines : Nat) : Except String (Option Collision) :=
  match file_hashes[l_info.1]?, file_hashes[r_info.1]? with
  | some l_h, some r_h =>
    if overlap l_info r_info min_lines then Except.ok none
    else
      match extendLoopChecked l_h r_h l_info.2 r_info.2 0 with
      | Except.ok offset =>
        if overlap l_info r_info offset then Except.ok none
        else
          Except.ok (some { key := kh ((l_h.drop l_info.2).take offset)
                            num_lines := offset
                            files := [(l_info.1, l_info.2), (r_info.1, r_info.2)]
                            sig := 0 })
      | Except.error e => Except.error e
  | _, _ => Except.error "invalid file id"

/-- Hash of the window of `min_lines` line signatures starting at offset `i`,
as accumulated by the inner loop of `rolling_hashes`. -/
def windowDigest (wh : List Nat → Nat) (sigs : List Nat)
    (i min_lines : Nat) : Nat :=
  wh ((sigs.drop i).take min_lines)

/-- The emission loop of `rolling_hashes`: `n` remaining offsets starting at
`i`, carrying the previous digest `prev` (initially the sentinel `0`); a pair
is emitted unless the digest equals `prev`, and `prev` is always updated to
the digest just computed. -/
def rollingFrom (wh : List Nat → Nat) (sigs : List Nat) (min_lines : Nat) :
    Nat → Nat → Nat → List (Nat × Nat)
  | 0, _, _ => []
  | n + 1, i, prev =>
    let d := windowDigest wh sigs i min_lines
    (if prev = d then [] else [(d, i)]) ++ rollingFrom wh sigs min_lines n (i + 1) d

/-- Mirror of `fn rolling_hashes(file_signatures, min_lines)`. -/
def rolling_hashes (wh : List Nat → Nat) (file_signatures : List Nat)
    (min_lines : Nat) : List (Nat × Nat) :=
  if file_signatures.length > min_lines then
    rollingFrom wh file_signatures min_lines (file_signatures.length - min_lines) 0 0
  else []

/-- Modelled from the spec's words for claim C6 (refinement reference): emit
one pair per offset in increasing order, omitting an offset exactly when its
window hash equals the immediately prior *emitted* hash (`lastEmitted`), with
no emission suppressed before the first one. -/
def rollingSpecFrom (wh : List Nat → Nat) (sigs : List Nat) (min_lines : Nat) :
    Nat → Nat → Option Nat → List (Nat × Nat)
  | 0, _, _ => []
  | n + 1, i, lastEmitted =>
    let d := windowDigest wh sigs i min_lines
    if lastEmitted = some d then rollingSpecFrom wh sigs min_lines n (i + 1) lastEmitted
    else (d, i) :: rollingSpecFrom wh sigs min_lines n (i + 1) (some d)

/-- Modelled from the spec's words for claim C6 (refinement reference): the
whole rolling-window indexer as the claim describes it. -/
def rollingHashesSpec (wh : List Nat → Nat) (file_signatures : List Nat)
    (min_lines : Nat) : List (Nat × Nat) :=
  if file_signatures.length > min_lines then
    rollingSpecFrom wh file_signatures min_lines
      (file_signatures.length - min_lines) 0 none
  else []

/-- The comparator of `Collision::scrub`'s sort: order by start line, ties by
file id (Rust: `if a.1 == b.1 { a.0.cmp(&b.0) } else { a.1.cmp(&b.1) }`). -/
def fileOrder (a b : Nat × Nat) : Prop :=
  a.2 < b.2 ∨ (a.2 = b.2 ∧ a.1 ≤ b.1)

instance : DecidableRel fileOrder := fun a b => by
  unfold fileOrder; infer_instance

instance : IsTotal (Nat × Nat) fileOrder :=
  ⟨by intro a b; unfold fileOrder; omega⟩

instance : IsTrans (Nat × Nat) fileOrder :=
  ⟨by intro a b c; unfold fileOrder; omega⟩

instance : IsAntisymm (Nat × Nat) fileOrder :=
  ⟨by
    intro a b hab hba
    unfold fileOrder at hab hba
    have h1 : a.1 = b.1 := by omega
    have h2 : a.2 = b.2 := by omega
    exact Prod.ext h1 h2⟩

/-- Mirror of Rust `Vec::dedup`: remove consecutive duplicate occurrences. -/
def dedupAdj : List (Nat × Nat) → List (Nat × Nat)
  | [] => []
  | [a] => [a]
  | a :: b :: rest =>
    if a = b then dedupAdj (b :: rest) else a :: dedupAdj (b :: rest)

/-- The filtering pass of `remove_overlap_same_file`: each occurrence after
the first is dropped exactly when its start line lies within
`[prev.start, prev.start + n]` of its immediate predecessor in the sorted
list (the Rust loop pops from the end and compares `cur` with `files.last()`,
i.e. with the original predecessor, whether or not that predecessor is kept). -/
def keepNonOverlap (n : Nat) : Nat × Nat → List (Nat × Nat) → List (Nat × Nat)
  | _, [] => []
  | prev, cur :: rest =>
    if cur.2 ≥ prev.2 ∧ cur.2 ≤ prev.2 + n then keepNonOverlap n cur rest
    else cur :: keepNonOverlap n cur rest

/-- Mirror of `Collision::remove_overlap_same_file`: only when every
occurrence refers to the file of the first occurrence is the overlap filter
applied; the first occurrence is always kept.  (Rust reads `files[0]` and
would panic on an empty list, which the program never passes here; the model
leaves an empty list unchanged.) -/
def removeOverlapSameFile (n : Nat) (files : List (Nat × Nat)) :
    List (Nat × Nat) :=
  match files with
  | [] => []
  | first :: rest =>
    if (first :: rest).all (fun p => p.1 == first.1) then
      first :: keepNonOverlap n first rest
    else first :: rest

/-- The decimal strings fed to the hasher by `Collision::_signature`: for each
occurrence, the decimal of `end = start + 1 + num_lines` concatenated directly
with the decimal of the file id. -/
def sigReps (n : Nat) (files : List (Nat × Nat)) : List String :=
  files.map (fun i => toString (i.2 + 1 + n) ++ toString i.1)

/-- Mirror of `Collision::scrub`: sort by (start line, file id), remove exact
duplicates, remove same-file overlaps, recompute the signature.  `sh`
abstracts the `DefaultHasher` over the list of strings `_signature` feeds it. -/
def scrub (sh : List String → Nat) (c : Collision) : Collision :=
  let sorted := List.insertionSort fileOrder c.files
  let ded := dedupAdj sorted
  let scrubbed := removeOverlapSameFile c.num_lines ded
  { c with files := scrubbed, sig := sh (sigReps c.num_lines scrubbed) }

/-- No two same-file occurrences with intersecting half-open line ranges
`[start, start + n)` appear in the list: the invariant claim C1 states for
scrubbed groups. -/
def noSameFileOverlapB (n : Nat) : List (Nat × Nat) → Bool
  | [] => true
  | a :: rest =>
    rest.all (fun b => !(rangesIntersectB a b n)) && noSameFileOverlapB n rest

/-- The accumulation loop of `print_report`: for each group, bump the ignored
count when the *content key* is in the ignore set, otherwise add
`num_lines * (occurrence count - 1)` to the duplicated-line total.  (Rust
computes `p.files.len() - 1` in `usize`; occurrence lists are never empty
where this runs, and the model uses truncated `Nat` subtraction.) -/
def reportLoop (ignores : List Nat) (acc : Nat × Nat) :
    List Collision → Nat × Nat
  | [] => acc
  | p :: rest =>
    if p.key ∈ ignores then reportLoop ignores (acc.1, acc.2 + 1) rest
    else reportLoop ignores (acc.1 + p.num_lines * (p.files.length - 1), acc.2) rest

/-- Summary counters of `print_report`: (total duplicated lines, ignored
group count). -/
def reportCounts (ignores : List Nat) (results : List Collision) : Nat × Nat :=
  reportLoop ignores (0, 0) results

/-- Modelled from the spec's words for claim C5 (refinement reference): the
same counters computed with the *group signature* deciding membership in the
ignore set, as the claim states. -/
def reportCountsSigSpec (ignores : List Nat) (results : List Collision) :
    Nat × Nat :=
  (((results.filter (fun p => p.sig ∉ ignores)).map
      (fun p => p.num_lines * (p.files.length - 1))).sum,
   (results.filter (fun p => p.sig ∈ ignores)).length)

/-- The sequential signature-keyed dedup loop of `process_report`: keep the
first group seen for each distinct signature (`chunk_processed`). -/
def dedupSigGo (seen : List Nat) : List Collision → List Collision
  | [] => []
  | c :: rest =>
    if c.sig ∈ seen then dedupSigGo seen rest
    else c :: dedupSigGo (c.sig :: seen) rest

/-- The signature-keyed final dedup pass of `process_report`. -/
def dedupBySignature (l : List Collision) : List Collision :=
  dedupSigGo [] l

/-! ## Lemmas about the extension loop -/

theorem getElem?_of_lt {α : Type} (d : α) (l : List α) (n : Nat)
    (h : n < l.length) : l[n]? = some (l.getD n d) := by
  induction l generalizing n with
  | nil => simp at h
  | cons a t ih =>
    cases n with
    | zero => simp
    | succ n => simpa using ih n (by simpa using h)

theorem extendLoop_le (l_h r_h : List Nat) (ls rs offset : Nat) :
    offset ≤ extendLoop l_h r_h ls rs offset := by
  induction offset using extendLoop.induct l_h r_h ls rs with
  | case1 x h heq ih => rw [extendLoop, dif_pos h, if_pos heq]; omega
  | case2 x h heq => rw [extendLoop, dif_pos h, if_neg heq]
  | case3 x h => rw [extendLoop, dif_neg h]

/-- At the offset where the loop stops, the guard of the Rust `loop` fails:
an index is out of bounds or the two signatures differ. -/
theorem extendLoop_stop (l_h r_h : List Nat) (ls rs offset : Nat) :
    ¬ (ls + extendLoop l_h r_h ls rs offset < l_h.length ∧
       rs + extendLoop l_h r_h ls rs offset < r_h.length ∧
       l_h.getD (ls + extendLoop l_h r_h ls rs offset) 0 =
         r_h.getD (rs + extendLoop l_h r_h ls rs offset) 0) := by
  induction offset using extendLoop.induct l_h r_h ls rs with
  | case1 x h heq ih => rw [extendLoop, dif_pos h, if_pos heq]; exact ih
  | case2 x h heq =>
    rw [extendLoop, dif_pos h, if_neg heq]
    intro hc; exact heq hc.2.2
  | case3 x h =>
    rw [extendLoop, dif_neg h]
    intro hc; exact h ⟨hc.1, hc.2.1⟩

/-- While every position below `m` is in bounds on both sides with equal
signatures, the loop reaches at least `m`. -/
theorem extendLoop_ge (l_h r_h : List Nat) (ls rs : Nat) (m : Nat)
    (hwin : ∀ k, k < m → ls + k < l_h.length ∧ rs + k < r_h.length ∧
      l_h.getD (ls + k) 0 = r_h.getD (rs + k) 0) (offset : Nat) (hoff : offset ≤ m) :
    m ≤ extendLoop l_h r_h ls rs offset := by
  induction offset using extendLoop.induct l_h r_h ls rs with
  | case1 x h heq ih =>
    rw [extendLoop, dif_pos h, if_pos heq]
    rcases Nat.lt_or_ge x m with hx | hx
    · exact ih hx
    · have := extendLoop_le l_h r_h ls rs (x + 1); omega
  | case2 x h heq =>
    rcases Nat.lt_or_ge x m with hx | hx
    · exact absurd (hwin x hx).2.2 heq
    · rw [extendLoop, dif_pos h, if_neg heq]; omega
  | case3 x h =>
    rcases Nat.lt_or_ge x m with hx | hx
    · have := hwin x hx; exact absurd ⟨this.1, this.2.1⟩ h
    · rw [extendLoop, dif_neg h]; omega

/-- The instrumented loop never errors and computes the same offset as the
plain loop. -/
theorem extendLoopChecked_eq (l_h r_h : List Nat) (ls rs offset : Nat) :
    extendLoopChecked l_h r_h ls rs offset =
      Except.ok (extendLoop l_h r_h ls rs offset) := by
  induction offset using extendLoop.induct l_h r_h ls rs with
  | case1 x h heq ih =>
    rw [extendLoop, dif_pos h, if_pos heq, extendLoopChecked, dif_pos h,
      getElem?_of_lt 0 _ _ h.1, getElem?_of_lt 0 _ _ h.2]
    show (if l_h.getD (ls + x) 0 = r_h.getD (rs + x) 0 then
      extendLoopChecked l_h r_h ls rs (x + 1) else Except.ok x) = _
    rw [if_pos heq]; exact ih
  | case2 x h heq =>
    rw [extendLoop, dif_pos h, if_neg heq, extendLoopChecked, dif_pos h,
      getElem?_of_lt 0 _ _ h.1, getElem?_of_lt 0 _ _ h.2]
    show (if l_h.getD (ls + x) 0 = r_h.getD (rs + x) 0 then
      extendLoopChecked l_h r_h ls rs (x + 1) else Except.ok x) = _
    rw [if_neg heq]
  | case3 x h =>
    rw [extendLoop, dif_neg h, extendLoopChecked, dif_neg h]

/-! ## Claim C9 -/

/-- C9: Extension safety and totality: for every file-hash table and every
pair of occurrences whose file ids are valid indices into the table (start
lines arbitrary, including past the end of the file), the instrumented
`maximize_collision` — in which every access into the table and into the two
signature vectors is fallible — terminates and returns `Except.ok` of the
plain model's result: no access during the lock-step extension loop is out of
bounds, and the function fails on no data content. -/
theorem c9_maximize_total_in_bounds (kh : List Nat → Nat)
    (file_hashes : List (List Nat)) (l_info r_info : Nat × Nat)
    (min_lines : Nat) (hl : l_info.1 < file_hashes.length)
    (hr : r_info.1 < file_hashes.length) :
    maximize_collisionChecked kh file_hashes l_info r_info min_lines =
      Except.ok (maximize_collision kh file_hashes l_info r_info min_lines) := by
  rw [maximize_collisionChecked, getElem?_of_lt [] _ _ hl, getElem?_of_lt [] _ _ hr]
  show (if overlap l_info r_info min_lines then Except.ok none
    else match extendLoopChecked (file_hashes.getD l_info.1 [])
        (file_hashes.getD r_info.1 []) l_info.2 r_info.2 0 with
      | Except.ok offset =>
        if overlap l_info r_info offset then Except.ok none
        else Except.ok (some (Collision.mk
          (kh (((file_hashes.getD l_info.1 []).drop l_info.2).take offset))
          offset [(l_info.1, l_info.2), (r_info.1, r_info.2)] 0))
      | Except.error e => Except.error e) = _
  rw [extendLoopChecked_eq, maximize_collision]
  by_cases h1 : overlap l_info r_info min_lines = true <;> simp [h1]
  split <;> rfl

/-- Witness for C9 at a concrete table and occurrence pair. -/
theorem c9_witness :
    (0 : Nat) < ([[1], [2]] : List (List Nat)).length ∧
    (1 : Nat) < ([[1], [2]] : List (List Nat)).length ∧
    maximize_collisionChecked (fun _ => 0) [[1], [2]] (0, 0) (1, 0) 0 =
      Except.ok (maximize_collision (fun _ => 0) [[1], [2]] (0, 0) (1, 0) 0) :=
  ⟨by decide, by decide,
    c9_maximize_total_in_bounds (fun _ => 0) [[1], [2]] (0, 0) (1, 0) 0
      (by decide) (by decide)⟩

/-! ## Claim C2 -/

/-- C2: Extension maximality: whenever `maximize_collision` returns `some`
collision with length `num_lines`, extending the match by one more line is
impossible: either index `start + num_lines` lies past the end of at least
one of the two signature sequences, or the two line signatures at offset
`num_lines` from the respective start lines differ. -/
theorem c2_extension_maximality (kh : List Nat → Nat)
    (file_hashes : List (List Nat)) (l_info r_info : Nat × Nat)
    (min_lines : Nat) (c : Collision)
    (h : maximize_collision kh file_hashes l_info r_info min_lines = some c) :
    (file_hashes.getD l_info.1 []).length ≤ l_info.2 + c.num_lines ∨
    (file_hashes.getD r_info.1 []).length ≤ r_info.2 + c.num_lines ∨
    (file_hashes.getD l_info.1 []).getD (l_info.2 + c.num_lines) 0 ≠
      (file_hashes.getD r_info.1 []).getD (r_info.2 + c.num_lines) 0 := by
  simp only [maximize_collision] at h
  by_cases h1 : overlap l_info r_info min_lines = true
  · rw [if_pos h1] at h; exact absurd h (by simp)
  · rw [if_neg h1] at h
    by_cases h2 : overlap l_info r_info
        (extendLoop (file_hashes.getD l_info.1 []) (file_hashes.getD r_info.1 [])
          l_info.2 r_info.2 0) = true
    · rw [if_pos h2] at h; exact absurd h (by simp)
    · rw [if_neg h2] at h
      have hc := (Option.some.inj h).symm
      have hnum : c.num_lines = extendLoop (file_hashes.getD l_info.1 [])
          (file_hashes.getD r_info.1 []) l_info.2 r_info.2 0 := by rw [hc]
      have hstop := extendLoop_stop (file_hashes.getD l_info.1 [])
        (file_hashes.getD r_info.1 []) l_info.2 r_info.2 0
      rw [hnum]
      by_contra hcon
      push_neg at hcon
      exact hstop ⟨by omega, by omega, hcon.2.2⟩

/-- Helper: a returned collision's `num_lines` is the extension loop's final
offset. -/
theorem maximize_some_num_lines (kh : List Nat → Nat)
    (file_hashes : List (List Nat)) (l_info r_info : Nat × Nat)
    (min_lines : Nat) (c : Collision)
    (h : maximize_collision kh file_hashes l_info r_info min_lines = some c) :
    c.num_lines = extendLoop (file_hashes.getD l_info.1 [])
      (file_hashes.getD r_info.1 []) l_info.2 r_info.2 0 := by
  simp only [maximize_collision] at h
  by_cases h1 : overlap l_info r_info min_lines = true
  · rw [if_pos h1] at h; exact absurd h (by simp)
  · rw [if_neg h1] at h
    by_cases h2 : overlap l_info r_info
        (extendLoop (file_hashes.getD l_info.1 []) (file_hashes.getD r_info.1 [])
          l_info.2 r_info.2 0) = true
    · rw [if_pos h2] at h; exact absurd h (by simp)
    · rw [if_neg h2] at h
      rw [(Option.some.inj h).symm]

/-- Helper: equality of the two `take m` windows gives pointwise equality of
the underlying signatures. -/
theorem window_eq_pointwise (l_h r_h : List Nat) (ls rs m : Nat)
    (hw : (l_h.drop ls).take m = (r_h.drop rs).take m) (k : Nat) (hk : k < m) :
    l_h.getD (ls + k) 0 = r_h.getD (rs + k) 0 := by
  have h1 : ((l_h.drop ls).take m)[k]? = ((r_h.drop rs).take m)[k]? := by rw [hw]
  rw [List.getElem?_take_of_lt hk, List.getElem?_take_of_lt hk] at h1
  simp only [List.getElem?_drop] at h1
  simp only [List.getD_eq_getElem?_getD, h1]

/-- Witness for C2 at a concrete table and occurrence pair. -/
theorem c2_witness :
    maximize_collision (fun _ => 0) [[5, 5], [5, 9]] (0, 0) (1, 0) 1 =
      some (Collision.mk 0 1 [(0, 0), (1, 0)] 0) ∧
    ((([[5, 5], [5, 9]] : List (List Nat)).getD 0 []).length ≤ 0 + 1 ∨
     (([[5, 5], [5, 9]] : List (List Nat)).getD 1 []).length ≤ 0 + 1 ∨
     (([[5, 5], [5, 9]] : List (List Nat)).getD 0 []).getD (0 + 1) 0 ≠
       (([[5, 5], [5, 9]] : List (List Nat)).getD 1 []).getD (0 + 1) 0) :=
  ⟨by simp [maximize_collision, extendLoop, overlap],
    c2_extension_maximality (fun _ => 0) [[5, 5], [5, 9]] (0, 0) (1, 0) 1
      (Collision.mk 0 1 [(0, 0), (1, 0)] 0)
      (by simp [maximize_collision, extendLoop, overlap])⟩

/-! ## Claim C3 -/

/-- C3 refuted as literally stated: with a colliding window hash, two
occurrences that share a window-hash value but whose actual windows differ
yield a collision with `num_lines < min_lines` (the extension verifies the
signatures, not the hash). -/
theorem c3_counterexample :
    windowDigest (fun _ => 0) (([[1, 2], [3, 4]] : List (List Nat)).getD 0 []) 0 1 =
      windowDigest (fun _ => 0) (([[1, 2], [3, 4]] : List (List Nat)).getD 1 []) 0 1 ∧
    maximize_collision (fun _ => 0) [[1, 2], [3, 4]] (0, 0) (1, 0) 1 =
      some (Collision.mk 0 0 [(0, 0), (1, 0)] 0) ∧
    (Collision.mk 0 0 [(0, 0), (1, 0)] 0).num_lines < 1 :=
  ⟨rfl, by simp [maximize_collision, extendLoop, overlap], by decide⟩

/-- C3 (amended): for every pair of occurrences whose windows of `min_lines`
signatures are in bounds and *equal* (the collision-free reading of "share a
window hash"), whenever `maximize_collision` returns `some` collision, that
collision's `num_lines` is at least `min_lines`. -/
theorem c3_min_bound_of_equal_windows (kh : List Nat → Nat)
    (file_hashes : List (List Nat)) (l_info r_info : Nat × Nat)
    (min_lines : Nat) (c : Collision)
    (hl : l_info.2 + min_lines ≤ (file_hashes.getD l_info.1 []).length)
    (hr : r_info.2 + min_lines ≤ (file_hashes.getD r_info.1 []).length)
    (hw : ((file_hashes.getD l_info.1 []).drop l_info.2).take min_lines =
          ((file_hashes.getD r_info.1 []).drop r_info.2).take min_lines)
    (h : maximize_collision kh file_hashes l_info r_info min_lines = some c) :
    min_lines ≤ c.num_lines := by
  rw [maximize_some_num_lines kh file_hashes l_info r_info min_lines c h]
  refine extendLoop_ge _ _ _ _ min_lines (fun k hk => ?_) 0 (Nat.zero_le _)
  exact ⟨by omega, by omega, window_eq_pointwise _ _ _ _ min_lines hw k hk⟩

/-- Witness for the amended C3 at a concrete table and occurrence pair. -/
theorem c3_witness :
    (0 : Nat) + 1 ≤ (([[5, 7], [5, 8]] : List (List Nat)).getD 0 []).length ∧
    (0 : Nat) + 1 ≤ (([[5, 7], [5, 8]] : List (List Nat)).getD 1 []).length ∧
    ((([[5, 7], [5, 8]] : List (List Nat)).getD 0 []).drop 0).take 1 =
      ((([[5, 7], [5, 8]] : List (List Nat)).getD 1 []).drop 0).take 1 ∧
    maximize_collision (fun _ => 0) [[5, 7], [5, 8]] (0, 0) (1, 0) 1 =
      some (Collision.mk 0 1 [(0, 0), (1, 0)] 0) ∧
    1 ≤ (Collision.mk 0 1 [(0, 0), (1, 0)] 0).num_lines :=
  ⟨by decide, by decide, by decide,
    by simp [maximize_collision, extendLoop, overlap],
    c3_min_bound_of_equal_windows (fun _ => 0) [[5, 7], [5, 8]] (0, 0) (1, 0) 1
      (Collision.mk 0 1 [(0, 0), (1, 0)] 0) (by decide) (by decide) (by decide)
      (by simp [maximize_collision, extendLoop, overlap])⟩

/-! ## Claim C4 -/

/-- C4 refuted as literally stated: a pair of occurrences in the same file
whose half-open ranges do not intersect — neither with the pre-extension
window length nor with the final extended length — is nevertheless rejected,
because the code's `overlap` check uses closed intervals. -/
theorem c4_counterexample :
    rangesIntersectB (0, 0) (0, 6) 6 = false ∧
    rangesIntersectB (0, 0) (0, 6)
      (extendLoop (([[]] : List (List Nat)).getD 0 [])
        (([[]] : List (List Nat)).getD 0 []) 0 6 0) = false ∧
    maximize_collision (fun _ => 0) [[]] (0, 0) (0, 6) 6 = none :=
  ⟨by decide, by simp [extendLoop, rangesIntersectB],
    by simp [maximize_collision, overlap]⟩

/-- C4 (amended): `maximize_collision` returns `none` exactly when the code's
`overlap` predicate holds for the pair — same file and either equal starts or
either start within the *closed* interval `[other.start, other.start + len]` —
at the pre-extension window length `min_lines` or at the final extended
length.  The closed-interval check also rejects some same-file pairs whose
half-open ranges do not intersect. -/
theorem c4_none_iff_overlap (kh : List Nat → Nat) (file_hashes : List (List Nat))
    (l_info r_info : Nat × Nat) (min_lines : Nat) :
    maximize_collision kh file_hashes l_info r_info min_lines = none ↔
      (overlap l_info r_info min_lines = true ∨
       overlap l_info r_info (extendLoop (file_hashes.getD l_info.1 [])
         (file_hashes.getD r_info.1 []) l_info.2 r_info.2 0) = true) := by
  simp only [maximize_collision]
  by_cases h1 : overlap l_info r_info min_lines = true
  · simp [h1]
  · by_cases h2 : overlap l_info r_info
        (extendLoop (file_hashes.getD l_info.1 []) (file_hashes.getD r_info.1 [])
          l_info.2 r_info.2 0) = true <;> simp [h1, h2]

/-! ## Claim C6 -/

/-- Helper: once a digest has been emitted, suppressing on the previous
computed digest and suppressing on the last emitted digest coincide. -/
theorem rollingFrom_eq_spec (wh : List Nat → Nat) (sigs : List Nat)
    (min_lines : Nat) : ∀ (n i prev : Nat),
    rollingFrom wh sigs min_lines n i prev =
      rollingSpecFrom wh sigs min_lines n i (some prev)
  | 0, _, _ => rfl
  | n + 1, i, prev => by
    rw [rollingFrom, rollingSpecFrom]
    by_cases hd : prev = windowDigest wh sigs i min_lines
    · simp only [hd, if_pos rfl, List.nil_append, if_pos (congrArg some hd)]
      exact rollingFrom_eq_spec wh sigs min_lines n (i + 1) _
    · simp only [if_neg hd, if_neg (fun hc => hd (Option.some.inj hc)),
        List.singleton_append, List.cons.injEq]
      exact ⟨trivial, rollingFrom_eq_spec wh sigs min_lines n (i + 1) _⟩

/-- C6 refuted as literally stated: the code compares each digest against the
previous *computed* digest, seeded with the sentinel `0`; when the first
window's digest equals `0`, offset `0` is omitted even though no prior
emitted hash exists, while the claim's description emits it. -/
theorem c6_counterexample :
    rolling_hashes (fun _ => 0) [1, 2, 3] 1 = [] ∧
    rollingHashesSpec (fun _ => 0) [1, 2, 3] 1 = [(0, 0)] :=
  ⟨by decide, by decide⟩

/-- C6 (amended): the suppression compares against the digest computed at the
immediately preceding offset, seeded with the sentinel `0` before the first
offset; whenever no window hashes to `0` this coincides with the claim's
description (`rollingHashesSpec`): empty output when the signature count is
at most `min_lines`, otherwise one pair per offset of `0..len-min_lines` in
increasing order, omitting an offset exactly when its window hash equals the
immediately prior emitted hash. -/
theorem c6_rolling_spec_of_hash_ne_zero (wh : List Nat → Nat)
    (file_signatures : List Nat) (min_lines : Nat)
    (h0 : ∀ w, wh w ≠ 0) :
    rolling_hashes wh file_signatures min_lines =
      rollingHashesSpec wh file_signatures min_lines := by
  rw [rolling_hashes, rollingHashesSpec]
  by_cases hlen : file_signatures.length > min_lines
  · rw [if_pos hlen, if_pos hlen]
    rcases hn : file_signatures.length - min_lines with _ | n
    · rfl
    · rw [rollingFrom, rollingSpecFrom]
      have hd : (0 : Nat) ≠ windowDigest wh file_signatures 0 min_lines :=
        fun hc => h0 _ hc.symm
      simp only [if_neg hd, List.singleton_append]
      have hnone : ¬ (none = some (windowDigest wh file_signatures 0 min_lines)) := by
        simp
      simp only [if_neg hnone, List.cons.injEq]
      exact ⟨trivial, rollingFrom_eq_spec wh file_signatures min_lines n 1 _⟩
  · rw [if_neg hlen, if_neg hlen]

/-- Witness for the amended C6 with a nowhere-zero hash. -/
theorem c6_witness :
    (∀ w : List Nat, (fun _ => (1 : Nat)) w ≠ 0) ∧
    rolling_hashes (fun _ => 1) [1, 2, 3] 1 =
      rollingHashesSpec (fun _ => 1) [1, 2, 3] 1 :=
  ⟨fun _ => Nat.one_ne_zero,
    c6_rolling_spec_of_hash_ne_zero (fun _ => 1) [1, 2, 3] 1
      (fun _ => Nat.one_ne_zero)⟩

/-! ## Lemmas about the canonicalizer -/

/-- Start-line comparison: the order the sorted occurrence list satisfies once
projected to start lines. -/
def startLe (a b : Nat × Nat) : Prop := a.2 ≤ b.2

/-- Gap relation: `b` starts more than `n` lines after `a` starts. -/
def gapGt (n : Nat) (a b : Nat × Nat) : Prop := a.2 + n < b.2

instance (n : Nat) : IsTrans (Nat × Nat) (gapGt n) :=
  ⟨by intro a b c hab hbc; unfold gapGt at *; omega⟩

theorem fileOrder_startLe {a b : Nat × Nat} (h : fileOrder a b) : startLe a b := by
  unfold fileOrder at h; unfold startLe; omega

theorem dedupAdj_sublist : ∀ l : List (Nat × Nat), (dedupAdj l).Sublist l
  | [] => List.Sublist.refl _
  | [_] => List.Sublist.refl _
  | a :: b :: rest => by
    rw [dedupAdj]
    by_cases hab : a = b
    · rw [if_pos hab]; exact (dedupAdj_sublist (b :: rest)).cons a
    · rw [if_neg hab]; exact (dedupAdj_sublist (b :: rest)).cons₂ a

theorem dedupAdj_cons_head : ∀ (b : Nat × Nat) (rest : List (Nat × Nat)),
    ∃ t, dedupAdj (b :: rest) = b :: t
  | _, [] => ⟨[], rfl⟩
  | b, c :: t => by
    rw [dedupAdj]
    by_cases hbc : b = c
    · obtain ⟨t', ht'⟩ := dedupAdj_cons_head c t
      exact ⟨t', by rw [if_pos hbc, ht', hbc]⟩
    · exact ⟨dedupAdj (c :: t), by rw [if_neg hbc]⟩

theorem dedupAdj_chain : ∀ l : List (Nat × Nat), (dedupAdj l).Chain' (· ≠ ·)
  | [] => List.chain'_nil
  | [a] => List.chain'_singleton a
  | a :: b :: rest => by
    rw [dedupAdj]
    by_cases hab : a = b
    · rw [if_pos hab]; exact dedupAdj_chain (b :: rest)
    · rw [if_neg hab]
      obtain ⟨t, ht⟩ := dedupAdj_cons_head b rest
      rw [ht]
      have := dedupAdj_chain (b :: rest)
      rw [ht] at this
      exact List.chain'_cons.mpr ⟨hab, this⟩

theorem dedupAdj_eq_self : ∀ l : List (Nat × Nat), l.Chain' (· ≠ ·) → dedupAdj l = l
  | [], _ => rfl
  | [_], _ => rfl
  | a :: b :: rest, h => by
    rw [dedupAdj, if_neg (List.chain'_cons.mp h).1,
      dedupAdj_eq_self (b :: rest) (List.chain'_cons.mp h).2]

/-- A list sorted under the antisymmetric order `fileOrder` whose adjacent
elements are distinct has pairwise-distinct elements. -/
theorem pairwise_ne_of_sorted_chain : ∀ {l : List (Nat × Nat)},
    l.Pairwise fileOrder → l.Chain' (· ≠ ·) → l.Pairwise (· ≠ ·)
  | [], _, _ => List.Pairwise.nil
  | [a], _, _ => by simp
  | a :: b :: rest, hp, hc => by
    rw [List.pairwise_cons] at hp ⊢
    have hab : a ≠ b := (List.chain'_cons.mp hc).1
    have htail := pairwise_ne_of_sorted_chain hp.2 (List.chain'_cons.mp hc).2
    refine ⟨?_, htail⟩
    intro x hx
    rcases List.mem_cons.mp hx with rfl | hx'
    · exact hab
    · intro hax
      have h1 : fileOrder a b := hp.1 b (List.mem_cons_self _ _)
      have h2 : fileOrder b x := (List.pairwise_cons.mp hp.2).1 x hx'
      exact hab (antisymm h1 (hax ▸ h2))

theorem keepNonOverlap_sublist (n : Nat) : ∀ (prev : Nat × Nat) (l : List (Nat × Nat)),
    (keepNonOverlap n prev l).Sublist l
  | _, [] => List.Sublist.refl _
  | prev, cur :: rest => by
    rw [keepNonOverlap]
    by_cases hd : cur.2 ≥ prev.2 ∧ cur.2 ≤ prev.2 + n
    · rw [if_pos hd]; exact (keepNonOverlap_sublist n cur rest).cons cur
    · rw [if_neg hd]; exact (keepNonOverlap_sublist n cur rest).cons₂ cur

theorem chain_weaken_head {R : (Nat × Nat) → (Nat × Nat) → Prop} {a b : Nat × Nat}
    {l : List (Nat × Nat)} (hw : ∀ y, R b y → R a y) (h : List.Chain R b l) :
    List.Chain R a l := by
  cases l with
  | nil => exact List.Chain.nil
  | cons c t => rw [List.chain_cons] at h ⊢; exact ⟨hw c h.1, h.2⟩

/-- On a list whose start lines ascend from `prev`, the survivors of the
overlap filter are separated by gaps of more than `n` lines. -/
theorem keepNonOverlap_chain_gap (n : Nat) : ∀ (prev : Nat × Nat) (l : List (Nat × Nat)),
    List.Chain startLe prev l →
    List.Chain (gapGt n) prev (keepNonOverlap n prev l)
  | _, [], _ => List.Chain.nil
  | prev, cur :: rest, h => by
    rw [List.chain_cons] at h
    have hpc : prev.2 ≤ cur.2 := h.1
    rw [keepNonOverlap]
    by_cases hd : cur.2 ≥ prev.2 ∧ cur.2 ≤ prev.2 + n
    · rw [if_pos hd]
      refine chain_weaken_head (fun y hy => ?_) (keepNonOverlap_chain_gap n cur rest h.2)
      unfold gapGt at hy ⊢; omega
    · rw [if_neg hd]
      rw [List.chain_cons]
      have h1 : gapGt n prev cur := by unfold gapGt; omega
      exact ⟨h1, keepNonOverlap_chain_gap n cur rest h.2⟩

theorem keepNonOverlap_eq_self (n : Nat) : ∀ (prev : Nat × Nat) (l : List (Nat × Nat)),
    List.Chain (gapGt n) prev l → keepNonOverlap n prev l = l
  | _, [], _ => rfl
  | prev, cur :: rest, h => by
    rw [List.chain_cons] at h
    have hg : prev.2 + n < cur.2 := h.1
    rw [keepNonOverlap, if_neg (by omega),
      keepNonOverlap_eq_self n cur rest h.2]

theorem removeOverlapSameFile_sublist (n : Nat) (l : List (Nat × Nat)) :
    (removeOverlapSameFile n l).Sublist l := by
  match l with
  | [] => exact List.Sublist.refl _
  | first :: rest =>
    rw [removeOverlapSameFile]
    by_cases hall : ((first :: rest).all (fun p => p.1 == first.1)) = true
    · rw [if_pos hall]; exact (keepNonOverlap_sublist n first rest).cons₂ first
    · rw [if_neg hall]

theorem removeOverlapSameFile_idem (n : Nat) (l : List (Nat × Nat))
    (hs : l.Pairwise fileOrder) :
    removeOverlapSameFile n (removeOverlapSameFile n l) = removeOverlapSameFile n l := by
  match l with
  | [] => rfl
  | first :: rest =>
    rw [removeOverlapSameFile]
    by_cases hall : ((first :: rest).all (fun p => p.1 == first.1)) = true
    · rw [if_pos hall]
      rw [removeOverlapSameFile]
      have hsub := keepNonOverlap_sublist n first rest
      have hall2 : ((first :: keepNonOverlap n first rest).all
          (fun p => p.1 == first.1)) = true := by
        rw [List.all_eq_true] at hall ⊢
        intro p hp
        rcases List.mem_cons.mp hp with rfl | hp'
        · simp
        · exact hall p (List.mem_cons_of_mem _ (hsub.subset hp'))
      rw [if_pos hall2]
      have hchain : List.Chain startLe first rest :=
        (List.Pairwise.chain' hs).imp (fun a b hab => fileOrder_startLe hab)
      rw [keepNonOverlap_eq_self n first _ (keepNonOverlap_chain_gap n first rest hchain)]
    · rw [if_neg hall, removeOverlapSameFile, if_neg hall]

theorem noSameFileOverlapB_of_pairwise_gap (n : Nat) : ∀ l : List (Nat × Nat),
    l.Pairwise (gapGt n) → noSameFileOverlapB n l = true
  | [], _ => rfl
  | a :: rest, h => by
    rw [List.pairwise_cons] at h
    rw [noSameFileOverlapB, Bool.and_eq_true]
    refine ⟨List.all_eq_true.mpr (fun b hb => ?_),
      noSameFileOverlapB_of_pairwise_gap n rest h.2⟩
    have hg : a.2 + n < b.2 := h.1 b hb
    simp only [rangesIntersectB, Bool.not_eq_true']
    rw [decide_eq_false_iff_not]
    omega

/-! ## Claim C1 -/

/-- C1 refuted as literally stated: a group whose occurrences span more than
one file bypasses `remove_overlap_same_file`, so two same-file occurrences
with intersecting ranges `[start, start + num_lines)` survive `scrub`. -/
theorem c1_counterexample :
    (scrub (fun _ => 0) (Collision.mk 0 5 [(0, 0), (0, 1), (1, 0)] 0)).files =
      [(0, 0), (1, 0), (0, 1)] ∧
    noSameFileOverlapB
      (scrub (fun _ => 0) (Collision.mk 0 5 [(0, 0), (0, 1), (1, 0)] 0)).num_lines
      (scrub (fun _ => 0) (Collision.mk 0 5 [(0, 0), (0, 1), (1, 0)] 0)).files = false :=
  ⟨by decide, by decide⟩

/-- C1 (amended): when every occurrence of a MatchGroup references one single
file — the only case the code's overlap removal handles — the occurrence list
surviving `scrub` contains no pair of occurrences whose half-open ranges
`[start, start + num_lines)` intersect. -/
theorem c1_overlap_free_of_single_file (sh : List String → Nat) (c : Collision)
    (f0 : Nat) (hall : ∀ p ∈ c.files, p.1 = f0) :
    noSameFileOverlapB (scrub sh c).num_lines (scrub sh c).files = true := by
  simp only [scrub]
  have hsorted := List.sorted_insertionSort fileOrder c.files
  have hded_sub := dedupAdj_sublist (List.insertionSort fileOrder c.files)
  have hded_sorted := List.Pairwise.sublist hded_sub hsorted
  have hmem : ∀ p ∈ dedupAdj (List.insertionSort fileOrder c.files), p.1 = f0 := by
    intro p hp
    exact hall p ((List.perm_insertionSort fileOrder c.files).subset (hded_sub.subset hp))
  rcases hd : dedupAdj (List.insertionSort fileOrder c.files) with _ | ⟨first, rest⟩
  · simp [removeOverlapSameFile, noSameFileOverlapB]
  · rw [hd] at hded_sorted hmem
    rw [removeOverlapSameFile]
    have hb : ((first :: rest).all fun p => p.1 == first.1) = true := by
      rw [List.all_eq_true]
      intro p hp
      have h1 : p.1 = f0 := hmem p hp
      have h2 : first.1 = f0 := hmem first (List.mem_cons_self _ _)
      simp [h1, h2]
    rw [if_pos hb]
    have hchain : List.Chain startLe first rest :=
      (List.Pairwise.chain' hded_sorted).imp (fun a b hab => fileOrder_startLe hab)
    exact noSameFileOverlapB_of_pairwise_gap _ _
      (List.chain_iff_pairwise.mp (keepNonOverlap_chain_gap c.num_lines first rest hchain))

/-- Witness for the amended C1 on a concrete single-file group. -/
theorem c1_witness :
    (∀ p ∈ (Collision.mk 0 2 [(0, 0), (0, 1), (0, 5)] 0).files, p.1 = 0) ∧
    noSameFileOverlapB
      (scrub (fun _ => 0) (Collision.mk 0 2 [(0, 0), (0, 1), (0, 5)] 0)).num_lines
      (scrub (fun _ => 0) (Collision.mk 0 2 [(0, 0), (0, 1), (0, 5)] 0)).files = true :=
  ⟨by decide, c1_overlap_free_of_single_file (fun _ => 0) _ 0 (by decide)⟩

/-! ## Claim C7 -/

/-- C7: Signature permutation invariance: applying `scrub` to a MatchGroup
with its occurrence list in any initial order yields the same final group —
in particular the same surviving occurrence list and the same signature
(independently of the stale incoming `sig` fields). -/
theorem c7_scrub_perm_invariant (sh : List String → Nat) (k n s1 s2 : Nat)
    (l1 l2 : List (Nat × Nat)) (hperm : l1.Perm l2) :
    scrub sh (Collision.mk k n l1 s1) = scrub sh (Collision.mk k n l2 s2) := by
  have hsort : List.insertionSort fileOrder l1 = List.insertionSort fileOrder l2 :=
    List.eq_of_perm_of_sorted
      ((List.perm_insertionSort fileOrder l1).trans
        (hperm.trans (List.perm_insertionSort fileOrder l2).symm))
      (List.sorted_insertionSort fileOrder l1) (List.sorted_insertionSort fileOrder l2)
  simp only [scrub, hsort]

/-- Witness for C7 on a concrete two-element permutation. -/
theorem c7_witness :
    ([(0, 3), (1, 2)] : List (Nat × Nat)).Perm [(1, 2), (0, 3)] ∧
    scrub (fun _ => 0) (Collision.mk 0 4 [(0, 3), (1, 2)] 5) =
      scrub (fun _ => 0) (Collision.mk 0 4 [(1, 2), (0, 3)] 6) :=
  ⟨by decide, c7_scrub_perm_invariant (fun _ => 0) 0 4 5 6 _ _ (by decide)⟩

/-! ## Claim C8 -/

/-- C8: Idempotent canonicalization: for a MatchGroup with a non-empty
occurrence list (Rust's `scrub` reads `files[0]` and panics on an empty one),
running `scrub` a second time changes neither the occurrence list nor the
signature — the whole group is unchanged. -/
theorem c8_scrub_idempotent (sh : List String → Nat) (c : Collision)
    (hne : c.files ≠ []) : scrub sh (scrub sh c) = scrub sh c := by
  simp only [scrub]
  have hsorted := List.sorted_insertionSort fileOrder c.files
  have hded_sub := dedupAdj_sublist (List.insertionSort fileOrder c.files)
  have hded_sorted := List.Pairwise.sublist hded_sub hsorted
  have hded_chain := dedupAdj_chain (List.insertionSort fileOrder c.files)
  have hded_pne := pairwise_ne_of_sorted_chain hded_sorted hded_chain
  have hF_sub := removeOverlapSameFile_sublist c.num_lines
    (dedupAdj (List.insertionSort fileOrder c.files))
  have hF_sorted := List.Pairwise.sublist hF_sub hded_sorted
  have hF_pne := List.Pairwise.sublist hF_sub hded_pne
  rw [List.Sorted.insertionSort_eq hF_sorted,
    dedupAdj_eq_self _ (List.Pairwise.chain' hF_pne),
    removeOverlapSameFile_idem c.num_lines _ hded_sorted]

/-- Witness for C8 on a concrete non-empty group. -/
theorem c8_witness :
    ((Collision.mk 0 2 [(0, 5), (0, 0), (0, 1)] 7).files ≠ []) ∧
    scrub (fun _ => 0) (scrub (fun _ => 0) (Collision.mk 0 2 [(0, 5), (0, 0), (0, 1)] 7)) =
      scrub (fun _ => 0) (Collision.mk 0 2 [(0, 5), (0, 0), (0, 1)] 7) :=
  ⟨by decide, c8_scrub_idempotent (fun _ => 0) _ (by decide)⟩

/-! ## Claim C10 -/

/-- C10: the group signature hashes, per occurrence, the decimal string of the
end line `start + num_lines + 1` concatenated directly with the decimal
string of the file id; an occurrence with end line 12 in file 3 and one with
end line 1 in file 23 both contribute the string "123", so two groups with
distinct occurrence sets get equal signatures — for every signature hasher
`sh` — and the signature-keyed final dedup pass keeps only the first group,
discarding one describing a different physical duplication. -/
theorem c10_signature_collision : ∀ sh : List String → Nat,
    (scrub sh (Collision.mk 0 1 [(3, 10)] 0)).sig =
      (scrub sh (Collision.mk 1 0 [(23, 0)] 0)).sig ∧
    (scrub sh (Collision.mk 0 1 [(3, 10)] 0)).files ≠
      (scrub sh (Collision.mk 1 0 [(23, 0)] 0)).files ∧
    dedupBySignature [scrub sh (Collision.mk 0 1 [(3, 10)] 0),
        scrub sh (Collision.mk 1 0 [(23, 0)] 0)] =
      [scrub sh (Collision.mk 0 1 [(3, 10)] 0)] := by
  intro sh
  have hA : scrub sh (Collision.mk 0 1 [(3, 10)] 0) =
      Collision.mk 0 1 [(3, 10)] (sh ["123"]) := rfl
  have hB : scrub sh (Collision.mk 1 0 [(23, 0)] 0) =
      Collision.mk 1 0 [(23, 0)] (sh ["123"]) := rfl
  rw [hA, hB]
  refine ⟨rfl, by simp, ?_⟩
  simp only [dedupBySignature, dedupSigGo]
  rw [if_neg (List.not_mem_nil _), if_pos (by simp)]

/-! ## Claim C5 -/

/-- Helper: closed form of the `print_report` accumulation loop. -/
theorem reportLoop_spec (ignores : List Nat) : ∀ (l : List Collision) (acc : Nat × Nat),
    reportLoop ignores acc l =
      (acc.1 + ((l.filter (fun p => decide (p.key ∉ ignores))).map
          (fun p => p.num_lines * (p.files.length - 1))).sum,
       acc.2 + (l.filter (fun p => decide (p.key ∈ ignores))).length)
  | [], acc => by simp [reportLoop]
  | p :: rest, acc => by
    rw [reportLoop]
    by_cases hk : p.key ∈ ignores
    · rw [if_pos hk, reportLoop_spec ignores rest _]
      simp [hk]
      omega
    · rw [if_neg hk, reportLoop_spec ignores rest _]
      simp [hk]
      omega

/-- C5 refuted as literally stated: a group whose *signature* is in the
ignore set but whose *content key* is not is neither counted in the ignored
total nor excluded from the duplicated-line total, because the code tests
`ignore_hashes.contains_key(&p.key)`. -/
theorem c5_counterexample :
    reportCounts [2] [Collision.mk 1 5 [(0, 0), (1, 0)] 2] = (5, 0) ∧
    reportCountsSigSpec [2] [Collision.mk 1 5 [(0, 0), (1, 0)] 2] = (0, 1) ∧
    reportCounts [2] [Collision.mk 1 5 [(0, 0), (1, 0)] 2] ≠
      reportCountsSigSpec [2] [Collision.mk 1 5 [(0, 0), (1, 0)] 2] :=
  ⟨by decide, by decide, by decide⟩

/-- C5 (amended): a group is counted in `num_ignored` and excluded from the
duplicated-line total exactly when its 64-bit *content key* (the value the
report prints as "Hash signature") is present in the ignore set; the total
duplicated-line count equals the sum, over reported non-ignored groups, of
`num_lines * (occurrence_count - 1)`. -/
theorem c5_report_counts_key_based (ignores : List Nat) (results : List Collision) :
    reportCounts ignores results =
      (((results.filter (fun p => decide (p.key ∉ ignores))).map
          (fun p => p.num_lines * (p.files.length - 1))).sum,
       (results.filter (fun p => decide (p.key ∈ ignores))).length) := by
  rw [reportCounts, reportLoop_spec]
  simp

end Duplihere
